import Mathlib

/-!
Verification development for libiban (src/src/libiban.cpp).

Strings are modelled as lists of characters, the C++ size_t as natural
numbers reduced modulo 2 ^ 64 at each conversion, and fallible C++ calls as
Option or Except values. Character classification models the C locale
(ASCII) semantics of the cctype functions used by the source.
-/

/-- Model of isdigit from cctype in the C locale. -/
def isdigit (c : Char) : Bool := 48 ≤ c.toNat && c.toNat ≤ 57

/-- Uppercase latin letter test, codes 65 to 90. -/
def isupperAZ (c : Char) : Bool := 65 ≤ c.toNat && c.toNat ≤ 90

/-- Lowercase latin letter test, codes 97 to 122. -/
def islower (c : Char) : Bool := 97 ≤ c.toNat && c.toNat ≤ 122

/-- Model of isalpha from cctype in the C locale. -/
def isalpha (c : Char) : Bool := isupperAZ c || islower c

/-- Model of isalnum from cctype in the C locale. -/
def isalnum (c : Char) : Bool := isalpha c || isdigit c

/-- Model of isspace from cctype in the C locale: space, tab, newline,
vertical tab, form feed, carriage return. -/
def isspace (c : Char) : Bool :=
  c.toNat = 32 || c.toNat = 9 || c.toNat = 10 || c.toNat = 11 || c.toNat = 12 || c.toNat = 13

/-- Model of toupper from cctype in the C locale: lowercase letters move
down by 32, every other character is unchanged. -/
def toupper (c : Char) : Char := if islower c then Char.ofNat (c.toNat - 32) else c

/-- Modelled from the spec: the helper trim declared in utils.h, a file that
is not part of src; per the spec (section 4.1 step 1) it removes leading and
trailing whitespace. -/
def trim (s : List Char) : List Char :=
  ((s.dropWhile isspace).reverse.dropWhile isspace).reverse

/-- Normalization performed by createFromString lines 108 to 110: copy the
argument into a local, trim it, uppercase every character. -/
def normalizeStr (s : List Char) : List Char := (trim s).map toupper

/-- Numeric value of a digit character. -/
def digitVal (c : Char) : Nat := c.toNat - 48

/-- Digit character with value d, for d below ten. -/
def chr (d : Nat) : Char := Char.ofNat (48 + d)

/-- Value denoted by a string of decimal digit characters, most significant
first. This models std::stol on the all-digit strings built inside validate
(lines 239 and 249) and the digit-run reading done by std::stoi. -/
def stolNat (s : List Char) : Nat := s.foldl (fun a c => a * 10 + digitVal c) 0

/-- Longest leading run of decimal digits, as read by strtol; none when the
run is empty, in which case std::stoi throws std::invalid_argument. -/
def stoiNum (t : List Char) : Option Nat :=
  let ds := t.takeWhile isdigit
  if ds = [] then none else some (stolNat ds)

/-- Sign handling of std::stoi after the whitespace skip. -/
def stoiFrom (t : List Char) : Option Int :=
  if t.headI = '-' then (stoiNum t.tail).map (fun n => -(Int.ofNat n))
  else if t.headI = '+' then (stoiNum t.tail).map (fun n => Int.ofNat n)
  else (stoiNum t).map (fun n => Int.ofNat n)

/-- Model of std::stoi with base 10: skip leading whitespace, read an
optional sign and then the longest digit run; none when no digit is found.
Overflow cannot occur on the two-character arguments appearing in this
development. -/
def stoi (s : List Char) : Option Int := stoiFrom (s.dropWhile isspace)

/-- Fuel-driven decimal printer; any fuel of at least n produces exactly the
decimal digits of n in front of acc. -/
def toDecimalAux : Nat → Nat → List Char → List Char
  | 0, _, acc => acc
  | fuel + 1, n, acc =>
    if n = 0 then acc else toDecimalAux fuel (n / 10) (chr (n % 10) :: acc)

/-- Model of std::to_string on size_t values: decimal digits, most
significant first, printing 0 as the single character zero. -/
def natToChars (n : Nat) : List Char := if n = 0 then ['0'] else toDecimalAux n n []

/-- Modelled from the spec: the source signals every parse failure with the
single exception type IBANParseException; the spec, section 7, refines those
failures into the taxonomy below, attached here to the corresponding throw
sites of createFromString. -/
inductive ParseError where
  | TooShort
  | TooLong
  | InvalidCountryCode
  | InvalidCheckDigits
  | InvalidAccountIdentifier
deriving DecidableEq

/-- The IBAN class data members (libiban.h is summarized by their uses in
libiban.cpp): country code string, account identifier string, checksum of
type size_t. -/
structure IBAN where
  m_countryCode : List Char
  m_accountIdentifier : List Char
  m_checkSum : Nat
deriving DecidableEq

instance : DecidableEq (Except ParseError IBAN) := fun a b =>
  match a, b with
  | .error x, .error y =>
    if h : x = y then .isTrue (by rw [h]) else .isFalse (fun hc => h (by injection hc))
  | .ok x, .ok y =>
    if h : x = y then .isTrue (by rw [h]) else .isFalse (fun hc => h (by injection hc))
  | .error _, .ok _ => .isFalse (fun hc => Except.noConfusion hc)
  | .ok _, .error _ => .isFalse (fun hc => Except.noConfusion hc)

/-- The static country code table of lines 67 to 89, in source order,
including the duplicated SA entry. -/
def m_countryCodes : List (List Char × Nat) := [
  ("AL".toList, 28), ("AD".toList, 24), ("AT".toList, 20), ("AZ".toList, 28), ("BE".toList, 16),
  ("BH".toList, 22), ("BA".toList, 20), ("BR".toList, 29), ("BG".toList, 22), ("CR".toList, 22),
  ("HR".toList, 21), ("CY".toList, 28), ("CZ".toList, 24), ("DK".toList, 18), ("DO".toList, 28),
  ("EE".toList, 20), ("FO".toList, 18), ("FI".toList, 18), ("FR".toList, 27), ("GE".toList, 22),
  ("DE".toList, 22), ("GI".toList, 23), ("GR".toList, 27), ("GL".toList, 18), ("GT".toList, 28),
  ("HU".toList, 28), ("IS".toList, 26), ("IE".toList, 22), ("IL".toList, 23), ("IT".toList, 27),
  ("KZ".toList, 20), ("KW".toList, 30), ("LV".toList, 21), ("LB".toList, 28), ("LI".toList, 21),
  ("LT".toList, 20), ("LU".toList, 20), ("MK".toList, 19), ("MT".toList, 31), ("MR".toList, 27),
  ("MU".toList, 30), ("MC".toList, 27), ("MD".toList, 24), ("ME".toList, 22), ("NL".toList, 18),
  ("NO".toList, 15), ("PK".toList, 24), ("PS".toList, 29), ("PL".toList, 28), ("PT".toList, 25),
  ("RO".toList, 24), ("SM".toList, 27), ("SA".toList, 24), ("RS".toList, 22), ("SK".toList, 24),
  ("SI".toList, 19), ("ES".toList, 24), ("SE".toList, 24), ("CH".toList, 21), ("TN".toList, 24),
  ("TR".toList, 26), ("AE".toList, 23), ("GB".toList, 22), ("VG".toList, 24), ("BJ".toList, 28),
  ("BF".toList, 28), ("BI".toList, 16), ("CM".toList, 27), ("CV".toList, 25), ("TL".toList, 23),
  ("IR".toList, 26), ("CI".toList, 28), ("JO".toList, 30), ("SA".toList, 24), ("MG".toList, 27),
  ("ML".toList, 28), ("MZ".toList, 25), ("QA".toList, 29), ("XK".toList, 20), ("SN".toList, 28),
  ("LC".toList, 32), ("ST".toList, 25), ("UA".toList, 29), ("SC".toList, 31), ("IQ".toList, 23),
  ("BY".toList, 28), ("SV".toList, 28), ("AO".toList, 25), ("CF".toList, 27), ("CG".toList, 27),
  ("EG".toList, 27), ("DJ".toList, 27), ("DZ".toList, 24), ("GA".toList, 27), ("GQ".toList, 27),
  ("GW".toList, 25), ("MA".toList, 28), ("NE".toList, 28), ("TD".toList, 27), ("TG".toList, 28),
  ("KM".toList, 27), ("HN".toList, 28), ("NI".toList, 32)]

/-- Lookup in the country code table; std::map find. On the duplicate key SA
both occurrences carry the same value, so first-match lookup agrees with the
map construction from the initializer list. -/
def mapFind (k : List Char) : Option Nat :=
  (m_countryCodes.find? (fun p => p.1 == k)).map Prod.snd

/-- Embedding of IBAN::createFromString, lines 103 to 136. The error labels
attached to the throw sites follow the taxonomy of the spec, section 4.1;
the source throws IBANParseException at each of them. The final match arm is
unreachable because the length test already guarantees at least five
characters. -/
def createFromString (string : List Char) : Except ParseError IBAN :=
  let s := normalizeStr string
  if s.length > 34 then .error .TooLong
  else if s.length < 5 then .error .TooShort
  else
    match s with
    | c0 :: c1 :: c2 :: c3 :: rest =>
      if !(isalpha c0 && isalpha c1) then .error .InvalidCountryCode
      else
        match stoi [c2, c3] with
        | none => .error .InvalidCheckDigits
        | some i =>
          let checkSum : Nat := (i.emod (2 ^ 64)).toNat
          if !(rest.all isalnum) then .error .InvalidAccountIdentifier
          else .ok ⟨[c0, c1], rest, checkSum⟩
    | _ => .error .InvalidCountryCode

/-- The parameter of createFromString is a const reference, line 103; the
const_cast on line 108 only feeds the copy assignment into the local s, and
trim and transform act on s, so the argument as left after the call is the
string that was passed in. The pair returned here makes that final argument
state explicit. -/
def createFromStringCall (string : List Char) : Except ParseError IBAN × List Char :=
  (createFromString string, string)

/-- Getter of line 143. -/
def IBAN.getAccountIdentifier (v : IBAN) : List Char := v.m_accountIdentifier

/-- Getter of line 152. -/
def IBAN.getChecksum (v : IBAN) : Nat := v.m_checkSum

/-- Getter of line 161. -/
def IBAN.getCountryCode (v : IBAN) : List Char := v.m_countryCode

/-- Embedding of IBAN::getMachineForm, lines 171 to 173: country code,
std::to_string of the checksum, account identifier. -/
def IBAN.getMachineForm (v : IBAN) : List Char :=
  v.m_countryCode ++ natToChars v.m_checkSum ++ v.m_accountIdentifier

/-- Loop of getHumanReadable lines 184 to 186: insert one space at position
i of the stored account identifier while i is below its current length,
stepping i by five; the length grows by one at each insertion. -/
def insertSpaces (acc : List Char) (i : Nat) : List Char :=
  if i < acc.length then insertSpaces (acc.take i ++ ' ' :: acc.drop i) (i + 5) else acc
termination_by acc.length + 5 - i
decreasing_by simp [List.length_append, List.length_take, List.length_drop]; omega

/-- Embedding of IBAN::getHumanReadable, lines 181 to 189. The method is not
const: the loop inserts the spaces into the member m_accountIdentifier
itself, so the call returns the display string together with the object as
the call leaves it. -/
def IBAN.getHumanReadable (v : IBAN) : List Char × IBAN :=
  let newAcc := insertSpaces v.m_accountIdentifier 0
  (v.m_countryCode ++ natToChars v.m_checkSum ++ newAcc,
   { v with m_accountIdentifier := newAcc })

/-- Checksum padding loop of validate, lines 205 to 208: prepend a zero
while the string is shorter than two characters. -/
def padLoop (s : List Char) : List Char :=
  if s.length < 2 then padLoop ('0' :: s) else s
termination_by 2 - s.length
decreasing_by simp; omega

/-- Check string of validate line 211: account identifier, country code,
padded checksum. -/
def checkStringOf (v : IBAN) : List Char :=
  v.m_accountIdentifier ++ v.m_countryCode ++ padLoop (natToChars v.m_checkSum)

/-- Substitution of one character, validate lines 219 to 228: digits pass
through, letters become (31 AND code) + 9 rendered in decimal, and any other
character makes validate return false. -/
def substChar (c : Char) : Option (List Char) :=
  if isdigit c then some [c]
  else if isalpha c then some (natToChars ((31 &&& c.toNat) + 9))
  else none

/-- Substitution loop building the numeric string of validate. -/
def substitute : List Char → Option (List Char)
  | [] => some []
  | c :: cs =>
    match substChar c, substitute cs with
    | some d, some ds => some (d ++ ds)
    | _, _ => none

/-- Remainder re-encoding of validate lines 241 to 245: render the remainder
in decimal and prepend one zero when it is below ten. -/
def prependRemainder (r : Nat) : List Char :=
  let p := natToChars r
  if r < 10 then '0' :: p else p

/-- Chunk loop of validate lines 238 to 248 from its second iteration on,
where the step is always 7, together with the final std::stol of line 249.
For every string reaching this loop the length is at least 15, so the size_t
subtraction in the loop condition never wraps and truncated subtraction
agrees with it. -/
def chunkLoop7 (numeric : List Char) (seg : Nat) (p : List Char) : Nat :=
  if seg < numeric.length - 7 then
    chunkLoop7 numeric (seg + 7)
      (prependRemainder (stolNat (p ++ (numeric.drop seg).take 7) % 97))
  else stolNat (p ++ numeric.drop seg)
termination_by numeric.length - seg
decreasing_by omega

/-- Chunked reduction of validate lines 230 to 249: the first iteration of
the loop uses step 9 and an empty prepend and is unrolled here; the returned
value is the number of line 249 that the modulus test of line 250 examines.
When the loop is never entered, that number reads the whole numeric
string. -/
def chunkRun (numeric : List Char) : Nat :=
  if 0 < numeric.length - 9 then
    chunkLoop7 numeric 9 (prependRemainder (stolNat (numeric.take 9) % 97))
  else stolNat numeric

/-- Embedding of IBAN::validate, lines 197 to 251. -/
def IBAN.validate (v : IBAN) : Bool :=
  match mapFind v.m_countryCode with
  | none => false
  | some expectedLength =>
    let checkString := checkStringOf v
    if checkString.length ≠ expectedLength then false
    else
      match substitute checkString with
      | none => false
      | some numeric => chunkRun numeric % 97 == 1

/-- The validate method is const, line 197, and its body assigns only to
locals, so a call returns its verdict and leaves the object as it was; the
pair makes the object state after the call explicit. -/
def IBAN.validateCall (v : IBAN) : Bool × IBAN := (IBAN.validate v, v)

/-- Instrumentation of chunkLoop7: the position handed to substr and the
string handed to std::stol at every iteration, including the final one of
line 249. -/
def chunkTrace7 (numeric : List Char) (seg : Nat) (p : List Char) : List (Nat × List Char) :=
  if seg < numeric.length - 7 then
    (seg, p ++ (numeric.drop seg).take 7) ::
      chunkTrace7 numeric (seg + 7)
        (prependRemainder (stolNat (p ++ (numeric.drop seg).take 7) % 97))
  else [(seg, p ++ numeric.drop seg)]
termination_by numeric.length - seg
decreasing_by omega

/-- Instrumentation of chunkRun: every substring position and std::stol
argument of the whole chunked reduction. -/
def chunkTrace (numeric : List Char) : List (Nat × List Char) :=
  if 0 < numeric.length - 9 then
    (0, numeric.take 9) ::
      chunkTrace7 numeric 9 (prependRemainder (stolNat (numeric.take 9) % 97))
  else [(0, numeric)]

/-- Parsed value of the valid German sample IBAN. -/
def ibanDE : IBAN :=
  { m_countryCode := "DE".toList,
    m_accountIdentifier := "370400440532013000".toList,
    m_checkSum := 89 }

/-- Numeric string produced by the substitution step on the check string of
the German sample. -/
def numericDE : List Char := "370400440532013000131489".toList
lemma toNat_ofNat_of_lt {n : Nat} (h : n < 55296) : (Char.ofNat n).toNat = n := by
  rw [Char.ofNat, dif_pos (Or.inl h)]
  rfl

lemma chr_toNat {d : Nat} (h : d < 10) : (chr d).toNat = 48 + d := by
  have h2 : 48 + d < 55296 := by omega
  simpa [chr] using toNat_ofNat_of_lt h2

lemma isdigit_chr {d : Nat} (h : d < 10) : isdigit (chr d) = true := by
  simp [isdigit, chr_toNat h]
  omega

lemma digitVal_chr {d : Nat} (h : d < 10) : digitVal (chr d) = d := by
  simp [digitVal, chr_toNat h]

lemma chr_digitVal {c : Char} (h : isdigit c = true) : chr (digitVal c) = c := by
  simp [isdigit] at h
  have h2 : 48 + digitVal c = c.toNat := by simp [digitVal]; omega
  simp [chr, h2, Char.ofNat_toNat]

lemma not_isspace_of_isdigit {c : Char} (h : isdigit c = true) : isspace c = false := by
  simp [isdigit] at h
  simp [isspace]
  omega

lemma not_isspace_of_isalpha {c : Char} (h : isalpha c = true) : isspace c = false := by
  simp [isalpha, isupperAZ, islower] at h
  simp [isspace]
  rcases h with h | h <;> omega

lemma not_isspace_of_isalnum {c : Char} (h : isalnum c = true) : isspace c = false := by
  simp [isalnum] at h
  rcases h with h | h
  · exact not_isspace_of_isalpha h
  · exact not_isspace_of_isdigit h

lemma isdigit_ne_minus {c : Char} (h : isdigit c = true) : c ≠ '-' := by
  intro hc
  subst hc
  exact absurd h (by decide)

lemma isdigit_ne_plus {c : Char} (h : isdigit c = true) : c ≠ '+' := by
  intro hc
  subst hc
  exact absurd h (by decide)

lemma isupperAZ_of_isalpha_not_lower {c : Char} (ha : isalpha c = true)
    (hl : islower c = false) : isupperAZ c = true := by
  simp [isalpha, hl] at ha
  exact ha

lemma islower_toupper (c : Char) : islower (toupper c) = false := by
  by_cases h : islower c
  · have hr : 97 ≤ c.toNat ∧ c.toNat ≤ 122 := by simpa [islower] using h
    have h2 : c.toNat - 32 < 55296 := by omega
    rw [toupper, if_pos h]
    simp [islower, toNat_ofNat_of_lt h2]
    omega
  · rw [toupper, if_neg h]
    simp only [Bool.not_eq_true] at h
    exact h

lemma toupper_eq_self {c : Char} (h : islower c = false) : toupper c = c := by
  simp [toupper, h]

lemma dropWhile_eq_self_of_all {p : Char → Bool} {l : List Char}
    (h : ∀ c ∈ l, p c = false) : l.dropWhile p = l := by
  cases l with
  | nil => rfl
  | cons a t => simp [List.dropWhile_cons, h a (by simp)]

lemma takeWhile_eq_self_of_all {p : Char → Bool} {l : List Char}
    (h : ∀ c ∈ l, p c = true) : l.takeWhile p = l := by
  induction l with
  | nil => rfl
  | cons a t ih =>
    rw [List.takeWhile_cons, if_pos (h a (by simp)), ih (fun c hc => h c (by simp [hc]))]

lemma trim_eq_self {l : List Char} (h : ∀ c ∈ l, isspace c = false) : trim l = l := by
  unfold trim
  rw [dropWhile_eq_self_of_all h,
    dropWhile_eq_self_of_all (fun c hc => h c (List.mem_reverse.mp hc)), List.reverse_reverse]

lemma map_toupper_eq_self {l : List Char} (h : ∀ c ∈ l, islower c = false) :
    l.map toupper = l := by
  induction l with
  | nil => rfl
  | cons a t ih =>
    simp only [List.map_cons, toupper_eq_self (h a (by simp)),
      ih (fun c hc => h c (by simp [hc]))]

lemma normalizeStr_eq_self {l : List Char} (hs : ∀ c ∈ l, isspace c = false)
    (hl : ∀ c ∈ l, islower c = false) : normalizeStr l = l := by
  unfold normalizeStr
  rw [trim_eq_self hs, map_toupper_eq_self hl]

lemma normalizeStr_no_lower (s : List Char) : ∀ c ∈ normalizeStr s, islower c = false := by
  intro c hc
  simp [normalizeStr] at hc
  obtain ⟨a, _, rfl⟩ := hc
  exact islower_toupper a

lemma stolNat_foldl (l : List Char) (a : Nat) :
    l.foldl (fun x c => x * 10 + digitVal c) a = a * 10 ^ l.length + stolNat l := by
  induction l generalizing a with
  | nil => simp [stolNat]
  | cons c t ih =>
    have h1 : stolNat (c :: t) = digitVal c * 10 ^ t.length + stolNat t := by
      show List.foldl _ _ (c :: t) = _
      rw [List.foldl_cons, ih (0 * 10 + digitVal c)]
      ring
    rw [List.foldl_cons, ih (a * 10 + digitVal c), h1]
    simp [List.length_cons]
    ring

lemma stolNat_append (a b : List Char) :
    stolNat (a ++ b) = stolNat a * 10 ^ b.length + stolNat b := by
  show List.foldl _ _ (a ++ b) = _
  rw [List.foldl_append]
  exact stolNat_foldl b _

lemma stolNat_cons_zero (l : List Char) : stolNat ('0' :: l) = stolNat l := rfl

lemma stolNat_lt {l : List Char} (h : ∀ c ∈ l, isdigit c = true) :
    stolNat l < 10 ^ l.length := by
  induction l with
  | nil => simp [stolNat]
  | cons c t ih =>
    have hc := h c (by simp)
    have hd : digitVal c ≤ 9 := by
      simp [isdigit] at hc
      simp [digitVal]
      omega
    have ht := ih (fun x hx => h x (by simp [hx]))
    have h1 : stolNat (c :: t) = digitVal c * 10 ^ t.length + stolNat t := by
      have h2 := stolNat_append [c] t
      simpa [stolNat] using h2
    rw [h1, List.length_cons, pow_succ]
    have h3 : digitVal c * 10 ^ t.length ≤ 9 * 10 ^ t.length :=
      Nat.mul_le_mul_right _ hd
    omega
lemma toDecimalAux_eq {fuel n : Nat} (acc : List Char) (h : n ≤ fuel) :
    toDecimalAux fuel n acc = ((Nat.digits 10 n).reverse.map chr) ++ acc := by
  induction fuel generalizing n acc with
  | zero =>
    have h0 : n = 0 := by omega
    subst h0
    simp [toDecimalAux]
  | succ fuel ih =>
    by_cases h0 : n = 0
    · subst h0
      simp [toDecimalAux]
    · rw [toDecimalAux, if_neg h0]
      have hle : n / 10 ≤ fuel := by
        have := Nat.div_lt_self (Nat.pos_of_ne_zero h0) (by norm_num : (1:Nat) < 10)
        omega
      rw [ih _ hle, Nat.digits_def' (by norm_num : (1:Nat) < 10) (Nat.pos_of_ne_zero h0)]
      simp

lemma natToChars_eq {n : Nat} (h : n ≠ 0) :
    natToChars n = (Nat.digits 10 n).reverse.map chr := by
  rw [natToChars, if_neg h, toDecimalAux_eq [] le_rfl, List.append_nil]

lemma natToChars_lt10 {n : Nat} (h : n < 10) : natToChars n = [chr n] := by
  by_cases h0 : n = 0
  · subst h0
    rw [natToChars, if_pos rfl]
    decide
  · rw [natToChars_eq h0,
      Nat.digits_def' (by norm_num : (1:Nat) < 10) (Nat.pos_of_ne_zero h0)]
    have h1 : n / 10 = 0 := by omega
    have h2 : n % 10 = n := Nat.mod_eq_of_lt h
    rw [h1, h2]
    simp

lemma natToChars_two {n : Nat} (h1 : 10 ≤ n) (h2 : n ≤ 99) :
    natToChars n = [chr (n / 10), chr (n % 10)] := by
  rw [natToChars_eq (by omega),
    Nat.digits_def' (by norm_num : (1:Nat) < 10) (by omega),
    Nat.digits_def' (by norm_num : (1:Nat) < 10) (by omega : 0 < n / 10)]
  have h3 : n / 10 / 10 = 0 := by omega
  have h4 : n / 10 % 10 = n / 10 := Nat.mod_eq_of_lt (by omega)
  rw [h3, h4]
  simp

lemma natToChars_digits (n : Nat) : ∀ c ∈ natToChars n, isdigit c = true := by
  by_cases h : n = 0
  · subst h
    rw [natToChars, if_pos rfl]
    decide
  · rw [natToChars_eq h]
    intro c hc
    simp at hc
    obtain ⟨d, hd, rfl⟩ := hc
    exact isdigit_chr (Nat.digits_lt_base (by norm_num) hd)

lemma natToChars_ne_nil (n : Nat) : natToChars n ≠ [] := by
  by_cases h : n = 0
  · subst h
    rw [natToChars, if_pos rfl]
    simp
  · rw [natToChars_eq h]
    simp [Nat.digits_ne_nil_iff_ne_zero, h]

lemma stolNat_natToChars_lt100 {n : Nat} (h : n < 100) : stolNat (natToChars n) = n := by
  by_cases h1 : n < 10
  · rw [natToChars_lt10 h1]
    show 0 * 10 + digitVal (chr n) = n
    rw [digitVal_chr h1]
    ring
  · rw [natToChars_two (by omega) (by omega)]
    show (0 * 10 + digitVal (chr (n / 10))) * 10 + digitVal (chr (n % 10)) = n
    rw [digitVal_chr (by omega), digitVal_chr (by omega)]
    omega

lemma prependRemainder_val {r : Nat} (h : r < 100) : stolNat (prependRemainder r) = r := by
  unfold prependRemainder
  by_cases h1 : r < 10
  · rw [if_pos h1, stolNat_cons_zero, stolNat_natToChars_lt100 h]
  · rw [if_neg h1, stolNat_natToChars_lt100 h]

lemma prependRemainder_length {r : Nat} (h : r < 100) : (prependRemainder r).length = 2 := by
  unfold prependRemainder
  by_cases h1 : r < 10
  · rw [if_pos h1, natToChars_lt10 h1]
    rfl
  · rw [if_neg h1, natToChars_two (by omega) (by omega)]
    rfl

lemma prependRemainder_digits {r : Nat} : ∀ c ∈ prependRemainder r, isdigit c = true := by
  unfold prependRemainder
  by_cases h1 : r < 10
  · rw [if_pos h1]
    intro c hc
    rcases List.mem_cons.mp hc with rfl | hc
    · decide
    · exact natToChars_digits r c hc
  · rw [if_neg h1]
    exact natToChars_digits r

lemma padLoop_of_two {s : List Char} (h : 2 ≤ s.length) : padLoop s = s := by
  rw [padLoop, if_neg (by omega)]

lemma padLoop_of_one {s : List Char} (h : s.length = 1) : padLoop s = '0' :: s := by
  rw [padLoop, if_pos (by omega), padLoop_of_two (by simp [h])]
lemma stoiNum_pair_digits {a b : Char} (ha : isdigit a = true) (hb : isdigit b = true) :
    stoiNum [a, b] = some (stolNat [a, b]) := by
  unfold stoiNum
  have hall : ∀ c ∈ [a, b], isdigit c = true := by
    intro c hc
    simp at hc
    rcases hc with rfl | rfl <;> assumption
  rw [takeWhile_eq_self_of_all hall]
  simp

lemma stoi_pair_digits {a b : Char} (ha : isdigit a = true) (hb : isdigit b = true) :
    stoi [a, b] = some ((stolNat [a, b] : Nat) : Int) := by
  unfold stoi stoiFrom
  have hsp : ∀ c ∈ [a, b], isspace c = false := by
    intro c hc
    simp at hc
    rcases hc with rfl | rfl <;> exact not_isspace_of_isdigit (by assumption)
  rw [dropWhile_eq_self_of_all hsp]
  have hh : [a, b].headI = a := rfl
  rw [hh, if_neg (isdigit_ne_minus ha), if_neg (isdigit_ne_plus ha),
    stoiNum_pair_digits ha hb]
  rfl

lemma stoiNum_nil_none : stoiNum [] = none := rfl

lemma digitVal_le9 {c : Char} (h : isdigit c = true) : digitVal c ≤ 9 := by
  simp [isdigit] at h
  simp [digitVal]
  omega

lemma stolNat_single (b : Char) : stolNat [b] = digitVal b := by
  simp [stolNat]

lemma stolNat_pair (a b : Char) : stolNat [a, b] = digitVal a * 10 + digitVal b := by
  simp [stolNat]

lemma stoiNum_single {b : Char} {n : Nat} (h : stoiNum [b] = some n) :
    isdigit b = true ∧ n = digitVal b ∧ n ≤ 9 := by
  unfold stoiNum at h
  by_cases hb : isdigit b = true
  · rw [takeWhile_eq_self_of_all (by intro c hc; simp at hc; subst hc; exact hb),
      if_neg (by simp)] at h
    injection h with h2
    have hs : stolNat [b] = digitVal b := stolNat_single b
    have hv : digitVal b ≤ 9 := digitVal_le9 hb
    exact ⟨hb, by omega, by omega⟩
  · simp [List.takeWhile_cons, hb] at h

lemma stoiNum_pair {a b : Char} {n : Nat} (h : stoiNum [a, b] = some n) :
    isdigit a = true ∧ n ≤ 99 ∧ (10 ≤ n → isdigit b = true ∧ n = stolNat [a, b]) := by
  unfold stoiNum at h
  by_cases hia : isdigit a = true
  · have hva : digitVal a ≤ 9 := digitVal_le9 hia
    by_cases hib : isdigit b = true
    · rw [takeWhile_eq_self_of_all
        (by intro c hc; simp at hc; rcases hc with rfl | rfl <;> assumption),
        if_neg (by simp)] at h
      injection h with h2
      have hvb : digitVal b ≤ 9 := digitVal_le9 hib
      have hs : stolNat [a, b] = digitVal a * 10 + digitVal b := stolNat_pair a b
      refine ⟨hia, by omega, fun _ => ⟨hib, by omega⟩⟩
    · rw [List.takeWhile_cons, if_pos hia, List.takeWhile_cons, if_neg hib,
        if_neg (by simp)] at h
      injection h with h2
      have hs : stolNat [a] = digitVal a := stolNat_single a
      refine ⟨hia, by omega, fun h10 => absurd h10 (by omega)⟩
  · rw [List.takeWhile_cons, if_neg hia, if_pos rfl] at h
    exact Option.noConfusion h

lemma stoiFrom_nil_none : stoiFrom [] = none := rfl

lemma stoiFrom_single_inv {b : Char} {i : Int} (h : stoiFrom [b] = some i) :
    -9 ≤ i ∧ i ≤ 9 := by
  simp only [stoiFrom, List.headI, List.tail_cons] at h
  by_cases hbm : b = '-'
  · rw [if_pos hbm, stoiNum_nil_none] at h
    exact Option.noConfusion h
  · rw [if_neg hbm] at h
    by_cases hbp : b = '+'
    · rw [if_pos hbp, stoiNum_nil_none] at h
      exact Option.noConfusion h
    · rw [if_neg hbp] at h
      cases hsn : stoiNum [b] with
      | none =>
        rw [hsn] at h
        exact Option.noConfusion h
      | some n =>
        rw [hsn] at h
        simp only [Option.map_some'] at h
        injection h with h2
        have h3 : (n : Int) = i := h2
        obtain ⟨_, _, h9⟩ := stoiNum_single hsn
        omega

lemma stoiFrom_pair_inv {a b : Char} {i : Int} (h : stoiFrom [a, b] = some i) :
    (-9 ≤ i ∧ i ≤ 99) ∧
      (10 ≤ i → isdigit a = true ∧ isdigit b = true ∧ (stolNat [a, b] : Int) = i) := by
  simp only [stoiFrom, List.headI, List.tail_cons] at h
  by_cases ham : a = '-'
  · rw [if_pos ham] at h
    cases hsn : stoiNum [b] with
    | none =>
      rw [hsn] at h
      exact Option.noConfusion h
    | some n =>
      rw [hsn] at h
      simp only [Option.map_some'] at h
      injection h with h2
      have h3 : -(n : Int) = i := h2
      obtain ⟨_, _, h9⟩ := stoiNum_single hsn
      constructor
      · omega
      · intro h10
        exfalso
        omega
  · rw [if_neg ham] at h
    by_cases hap : a = '+'
    · rw [if_pos hap] at h
      cases hsn : stoiNum [b] with
      | none =>
        rw [hsn] at h
        exact Option.noConfusion h
      | some n =>
        rw [hsn] at h
        simp only [Option.map_some'] at h
        injection h with h2
        have h3 : (n : Int) = i := h2
        obtain ⟨_, _, h9⟩ := stoiNum_single hsn
        constructor
        · omega
        · intro h10
          exfalso
          omega
    · rw [if_neg hap] at h
      cases hsn : stoiNum [a, b] with
      | none =>
        rw [hsn] at h
        exact Option.noConfusion h
      | some n =>
        rw [hsn] at h
        simp only [Option.map_some'] at h
        injection h with h2
        have h3 : (n : Int) = i := h2
        obtain ⟨hia, hn99, hlarge⟩ := stoiNum_pair hsn
        constructor
        · omega
        · intro h10
          obtain ⟨hib, hnv⟩ := hlarge (by omega)
          exact ⟨hia, hib, by omega⟩

lemma stoi_pair_inv {a b : Char} {i : Int} (h : stoi [a, b] = some i) :
    (-9 ≤ i ∧ i ≤ 99) ∧
      (10 ≤ i → isdigit a = true ∧ isdigit b = true ∧ (stolNat [a, b] : Int) = i) := by
  unfold stoi at h
  by_cases hsa : isspace a = true
  · rw [List.dropWhile_cons, if_pos hsa] at h
    by_cases hsb : isspace b = true
    · rw [List.dropWhile_cons, if_pos hsb, List.dropWhile_nil, stoiFrom_nil_none] at h
      exact Option.noConfusion h
    · rw [List.dropWhile_cons, if_neg (by simp [hsb])] at h
      obtain ⟨h1, h9⟩ := stoiFrom_single_inv h
      constructor
      · omega
      · intro h10
        exfalso
        omega
  · rw [List.dropWhile_cons, if_neg (by simp [hsa])] at h
    exact stoiFrom_pair_inv h
lemma substChar_digits {c : Char} {d : List Char} (h : substChar c = some d) :
    ∀ x ∈ d, isdigit x = true := by
  unfold substChar at h
  by_cases h1 : isdigit c = true
  · rw [if_pos h1] at h
    injection h with h2
    subst h2
    intro x hx
    simp at hx
    subst hx
    exact h1
  · rw [if_neg h1] at h
    by_cases h2 : isalpha c = true
    · rw [if_pos h2] at h
      injection h with h3
      subst h3
      exact natToChars_digits _
    · rw [if_neg h2] at h
      exact Option.noConfusion h

lemma substChar_ne_nil {c : Char} {d : List Char} (h : substChar c = some d) : d ≠ [] := by
  unfold substChar at h
  by_cases h1 : isdigit c = true
  · rw [if_pos h1] at h
    injection h with h2
    subst h2
    simp
  · rw [if_neg h1] at h
    by_cases h2 : isalpha c = true
    · rw [if_pos h2] at h
      injection h with h3
      subst h3
      exact natToChars_ne_nil _
    · rw [if_neg h2] at h
      exact Option.noConfusion h

lemma substitute_digits : ∀ {s t : List Char}, substitute s = some t →
    ∀ c ∈ t, isdigit c = true
  | [], t, h => by
    simp [substitute] at h
    subst h
    intro c hc
    simp at hc
  | c :: cs, t, h => by
    unfold substitute at h
    cases hsc : substChar c with
    | none =>
      rw [hsc] at h
      exact Option.noConfusion h
    | some d =>
      cases hst : substitute cs with
      | none =>
        rw [hsc, hst] at h
        exact Option.noConfusion h
      | some ds =>
        rw [hsc, hst] at h
        injection h with h2
        subst h2
        intro x hx
        rcases List.mem_append.mp hx with hx | hx
        · exact substChar_digits hsc x hx
        · exact substitute_digits hst x hx

lemma substitute_length : ∀ {s t : List Char}, substitute s = some t →
    s.length ≤ t.length
  | [], t, h => by
    simp [substitute] at h
    subst h
    simp
  | c :: cs, t, h => by
    unfold substitute at h
    cases hsc : substChar c with
    | none =>
      rw [hsc] at h
      exact Option.noConfusion h
    | some d =>
      cases hst : substitute cs with
      | none =>
        rw [hsc, hst] at h
        exact Option.noConfusion h
      | some ds =>
        rw [hsc, hst] at h
        injection h with h2
        subst h2
        have h1 : 1 ≤ d.length := by
          have := substChar_ne_nil hsc
          cases d with
          | nil => simp at this
          | cons _ _ => simp
        have h2 := substitute_length hst
        simp [List.length_append, List.length_cons]
        omega

lemma table_min : ∀ p ∈ m_countryCodes, 15 ≤ p.2 := by decide

lemma mapFind_min {k : List Char} {e : Nat} (h : mapFind k = some e) : 15 ≤ e := by
  unfold mapFind at h
  cases hf : m_countryCodes.find? (fun p => p.1 == k) with
  | none =>
    rw [hf] at h
    exact Option.noConfusion h
  | some p =>
    rw [hf] at h
    injection h with h2
    exact h2 ▸ table_min p (List.mem_of_find?_eq_some hf)

lemma chunkLoop7_mod (numeric : List Char) : ∀ (seg : Nat) (p : List Char),
    chunkLoop7 numeric seg p % 97 =
      (stolNat p * 10 ^ (numeric.length - seg) + stolNat (numeric.drop seg)) % 97 := by
  refine chunkLoop7.induct numeric
    (fun seg p => chunkLoop7 numeric seg p % 97 =
      (stolNat p * 10 ^ (numeric.length - seg) + stolNat (numeric.drop seg)) % 97)
    (fun seg p hcond ih => ?_) (fun seg p hcond => ?_)
  · beta_reduce at ih ⊢
    rw [chunkLoop7.eq_def, if_pos hcond, ih]
    have hlen7 : 7 < numeric.length - seg := by omega
    have hchunk : ((numeric.drop seg).take 7).length = 7 := by
      simp [List.length_take, List.length_drop]
      omega
    have hdd : (numeric.drop seg).drop 7 = numeric.drop (seg + 7) :=
      List.drop_drop 7 seg numeric
    have hsplit : numeric.drop seg = (numeric.drop seg).take 7 ++ numeric.drop (seg + 7) := by
      rw [← hdd, List.take_append_drop]
    have hmod100 : stolNat (p ++ (numeric.drop seg).take 7) % 97 < 100 := by
      have := Nat.mod_lt (stolNat (p ++ (numeric.drop seg).take 7)) (show 0 < 97 by norm_num)
      omega
    rw [prependRemainder_val hmod100]
    have happ : stolNat (p ++ (numeric.drop seg).take 7)
        = stolNat p * 10 ^ 7 + stolNat ((numeric.drop seg).take 7) := by
      rw [stolNat_append, hchunk]
    have hdropv : stolNat (numeric.drop seg)
        = stolNat ((numeric.drop seg).take 7) * 10 ^ (numeric.length - (seg + 7))
          + stolNat (numeric.drop (seg + 7)) := by
      conv_lhs => rw [hsplit]
      rw [stolNat_append]
      simp [List.length_drop]
    rw [happ, hdropv]
    have hk : numeric.length - seg = (numeric.length - (seg + 7)) + 7 := by omega
    rw [hk]
    set A := stolNat p
    set C := stolNat ((numeric.drop seg).take 7)
    set R := stolNat (numeric.drop (seg + 7))
    set k := numeric.length - (seg + 7)
    have hcong : (A * 10 ^ 7 + C) % 97 * 10 ^ k + R ≡ (A * 10 ^ 7 + C) * 10 ^ k + R [MOD 97] :=
      ((Nat.mod_modEq (A * 10 ^ 7 + C) 97).mul_right (10 ^ k)).add_right R
    have harith : (A * 10 ^ 7 + C) * 10 ^ k + R = A * 10 ^ (k + 7) + (C * 10 ^ k + R) := by
      ring
    rw [harith] at hcong
    exact hcong
  · beta_reduce
    rw [chunkLoop7.eq_def, if_neg hcond, stolNat_append]
    simp [List.length_drop]

lemma chunkRun_mod (numeric : List Char) : chunkRun numeric % 97 = stolNat numeric % 97 := by
  rw [chunkRun]
  by_cases h : 0 < numeric.length - 9
  · rw [if_pos h, chunkLoop7_mod]
    have hmod100 : stolNat (numeric.take 9) % 97 < 100 := by
      have := Nat.mod_lt (stolNat (numeric.take 9)) (show 0 < 97 by norm_num)
      omega
    rw [prependRemainder_val hmod100]
    have h9 : (numeric.take 9).length = 9 := by
      simp [List.length_take]
      omega
    have hv : stolNat numeric
        = stolNat (numeric.take 9) * 10 ^ (numeric.length - 9) + stolNat (numeric.drop 9) := by
      conv_lhs => rw [← List.take_append_drop 9 numeric]
      rw [stolNat_append]
      simp [List.length_drop]
    rw [hv]
    exact ((Nat.mod_modEq (stolNat (numeric.take 9)) 97).mul_right
      (10 ^ (numeric.length - 9))).add_right (stolNat (numeric.drop 9))
  · rw [if_neg h]

lemma validate_true_iff {v : IBAN} {exp : Nat} {numeric : List Char}
    (h1 : mapFind v.m_countryCode = some exp)
    (h2 : (checkStringOf v).length = exp)
    (h3 : substitute (checkStringOf v) = some numeric) :
    (IBAN.validate v = true ↔ stolNat numeric % 97 = 1) := by
  unfold IBAN.validate
  rw [h1]
  simp only [h2, h3]
  rw [if_neg (by simp)]
  rw [beq_iff_eq, chunkRun_mod]
lemma createFromString_ok_inv {string : List Char} {v : IBAN}
    (h : createFromString string = .ok v) :
    ∃ c0 c1 c2 c3 rest i,
      normalizeStr string = c0 :: c1 :: c2 :: c3 :: rest ∧
      5 ≤ (normalizeStr string).length ∧ (normalizeStr string).length ≤ 34 ∧
      isalpha c0 = true ∧ isalpha c1 = true ∧
      stoi [c2, c3] = some i ∧
      rest.all isalnum = true ∧
      v = ⟨[c0, c1], rest, (i.emod (2 ^ 64)).toNat⟩ := by
  have h34 : ¬ (normalizeStr string).length > 34 := by
    intro hgt
    simp only [createFromString] at h
    rw [if_pos hgt] at h
    exact Except.noConfusion h
  have h5 : ¬ (normalizeStr string).length < 5 := by
    intro hlt
    simp only [createFromString] at h
    rw [if_neg h34, if_pos hlt] at h
    exact Except.noConfusion h
  simp only [createFromString] at h
  rw [if_neg h34, if_neg h5] at h
  cases hs0 : normalizeStr string with
  | nil =>
    rw [hs0] at h5
    simp at h5
  | cons c0 t0 =>
  cases t0 with
  | nil =>
    rw [hs0] at h5
    simp at h5
  | cons c1 t1 =>
  cases t1 with
  | nil =>
    rw [hs0] at h5
    simp at h5
  | cons c2 t2 =>
  cases t2 with
  | nil =>
    rw [hs0] at h5
    simp at h5
  | cons c3 rest =>
  rw [hs0] at h
  simp only [] at h
  by_cases hab : (!(isalpha c0 && isalpha c1)) = true
  · rw [if_pos hab] at h
    exact Except.noConfusion h
  rw [if_neg hab] at h
  simp only [Bool.not_eq_true', Bool.not_eq_false, Bool.and_eq_true] at hab
  cases hst : stoi [c2, c3] with
  | none =>
    rw [hst] at h
    exact Except.noConfusion h
  | some i =>
  rw [hst] at h
  simp only [] at h
  by_cases hal : (!(rest.all isalnum)) = true
  · rw [if_pos hal] at h
    exact Except.noConfusion h
  rw [if_neg hal] at h
  simp only [Bool.not_eq_true', Bool.not_eq_false] at hal
  injection h with h2
  rw [hs0] at h34 h5
  exact ⟨c0, c1, c2, c3, rest, i, rfl, by omega, by omega, hab.1, hab.2, hst, hal, h2.symm⟩
lemma stolNat_pair_lt100 {c2 c3 : Char} (h2 : isdigit c2 = true) (h3 : isdigit c3 = true) :
    stolNat [c2, c3] ≤ 99 := by
  have ha := digitVal_le9 h2
  have hb := digitVal_le9 h3
  rw [stolNat_pair]
  omega

lemma createFromString_good {c0 c1 c2 c3 : Char} {rest : List Char}
    (hlen : (c0 :: c1 :: c2 :: c3 :: rest).length ≤ 34) (hr1 : 1 ≤ rest.length)
    (hns : normalizeStr (c0 :: c1 :: c2 :: c3 :: rest) = c0 :: c1 :: c2 :: c3 :: rest)
    (ha0 : isalpha c0 = true) (ha1 : isalpha c1 = true)
    (hd2 : isdigit c2 = true) (hd3 : isdigit c3 = true)
    (hrest : rest.all isalnum = true) :
    createFromString (c0 :: c1 :: c2 :: c3 :: rest)
      = .ok ⟨[c0, c1], rest, stolNat [c2, c3]⟩ := by
  simp only [createFromString, hns]
  rw [if_neg (by simp at hlen ⊢; omega), if_neg (by simp; omega)]
  rw [if_neg (by simp [ha0, ha1]), stoi_pair_digits hd2 hd3]
  simp only []
  rw [if_neg (by simp [hrest])]
  have hv : stolNat [c2, c3] ≤ 99 := stolNat_pair_lt100 hd2 hd3
  have hemod : ((stolNat [c2, c3] : Nat) : Int).emod (2 ^ 64) = ((stolNat [c2, c3] : Nat) : Int) := by
    apply Int.emod_eq_of_lt
    · exact Int.natCast_nonneg _
    · omega
  rw [hemod]
  simp
lemma not_islower_of_isdigit {c : Char} (h : isdigit c = true) : islower c = false := by
  simp [isdigit] at h
  simp [islower]
  omega

lemma char_zero_of_digitVal_zero {c : Char} (h : isdigit c = true) (h0 : digitVal c = 0) :
    c = '0' := by
  have hc := chr_digitVal h
  rw [h0] at hc
  rw [← hc]
  decide

lemma natToChars_pair {c2 c3 : Char} (h2 : isdigit c2 = true) (h3 : isdigit c3 = true)
    (h10 : 10 ≤ stolNat [c2, c3]) :
    natToChars (stolNat [c2, c3]) = [c2, c3] := by
  have ha := digitVal_le9 h2
  have hb := digitVal_le9 h3
  rw [natToChars_two h10 (stolNat_pair_lt100 h2 h3)]
  rw [stolNat_pair]
  have hdiv : (digitVal c2 * 10 + digitVal c3) / 10 = digitVal c2 := by omega
  have hmod : (digitVal c2 * 10 + digitVal c3) % 10 = digitVal c3 := by omega
  rw [hdiv, hmod, chr_digitVal h2, chr_digitVal h3]

lemma padLoop_natToChars_pair {c2 c3 : Char} (h2 : isdigit c2 = true)
    (h3 : isdigit c3 = true) :
    padLoop (natToChars (stolNat [c2, c3])) = [c2, c3] := by
  have ha := digitVal_le9 h2
  have hb := digitVal_le9 h3
  by_cases h10 : stolNat [c2, c3] < 10
  · have hsp := stolNat_pair c2 c3
    have hc2 : digitVal c2 = 0 := by omega
    have hval : stolNat [c2, c3] = digitVal c3 := by omega
    rw [hval, natToChars_lt10 (by omega), padLoop_of_one (by simp), chr_digitVal h3,
      char_zero_of_digitVal_zero h2 hc2]
  · rw [natToChars_pair h2 h3 (by omega), padLoop_of_two (by simp)]
lemma emod_cases (i : Int) (hlo : -9 ≤ i) (hhi : i ≤ 99) :
    i.emod (2 ^ 64) = i ∨ i.emod (2 ^ 64) = i + 2 ^ 64 := by
  by_cases hpos : 0 ≤ i
  · left
    exact Int.emod_eq_of_lt hpos (by omega)
  · right
    push_neg at hpos
    have hshift : (i + 2 ^ 64) % (2 ^ 64) = i % (2 ^ 64) := by
      simp
    have heq : (i + 2 ^ 64) % (2 ^ 64) = i + 2 ^ 64 :=
      Int.emod_eq_of_lt (by omega) (by omega)
    have hconv : i.emod (2 ^ 64) = i % (2 ^ 64) := rfl
    rw [hconv, ← hshift, heq]

lemma roundtrip_core {s : List Char} {v : IBAN}
    (h : createFromString s = .ok v)
    (h10 : 10 ≤ v.m_checkSum) (h99 : v.m_checkSum ≤ 99) :
    createFromString (IBAN.getMachineForm v) = .ok v := by
  obtain ⟨c0, c1, c2, c3, rest, i, hs0, hlen5, hlen34, ha0, ha1, hst, hal, hv⟩ :=
    createFromString_ok_inv h
  obtain ⟨⟨hblo, hbhi⟩, hlarge⟩ := stoi_pair_inv hst
  have hcs : v.m_checkSum = (i.emod (2 ^ 64)).toNat := by rw [hv]
  have hec := emod_cases i hblo hbhi
  have h10i : 10 ≤ i := by omega
  obtain ⟨hd2, hd3, hveq⟩ := hlarge h10i
  have hcsv : v.m_checkSum = stolNat [c2, c3] := by omega
  have hnc : natToChars v.m_checkSum = [c2, c3] := by
    rw [hcsv]
    exact natToChars_pair hd2 hd3 (by omega)
  have hvc : v.m_countryCode = [c0, c1] := by rw [hv]
  have hva : v.m_accountIdentifier = rest := by rw [hv]
  have hmf : IBAN.getMachineForm v = c0 :: c1 :: c2 :: c3 :: rest := by
    unfold IBAN.getMachineForm
    rw [hvc, hva, hnc]
    simp
  have hnl : ∀ c ∈ normalizeStr s, islower c = false := normalizeStr_no_lower s
  have hml : ∀ c ∈ (c0 :: c1 :: c2 :: c3 :: rest), islower c = false := by
    rw [← hs0]
    exact hnl
  have hmsp : ∀ c ∈ (c0 :: c1 :: c2 :: c3 :: rest), isspace c = false := by
    intro c hc
    rcases List.mem_cons.mp hc with rfl | hc
    · exact not_isspace_of_isalpha ha0
    rcases List.mem_cons.mp hc with rfl | hc
    · exact not_isspace_of_isalpha ha1
    rcases List.mem_cons.mp hc with rfl | hc
    · exact not_isspace_of_isdigit hd2
    rcases List.mem_cons.mp hc with rfl | hc
    · exact not_isspace_of_isdigit hd3
    · exact not_isspace_of_isalnum (List.all_eq_true.mp hal c hc)
  have hns : normalizeStr (c0 :: c1 :: c2 :: c3 :: rest) = c0 :: c1 :: c2 :: c3 :: rest :=
    normalizeStr_eq_self hmsp hml
  rw [hmf]
  rw [createFromString_good (by rw [← hs0]; omega)
    (by rw [hs0] at hlen5; simp at hlen5 ⊢; omega) hns ha0 ha1 hd2 hd3 hal]
  rw [hv]
  have hfin : stolNat [c2, c3] = (i.emod (2 ^ 64)).toNat := by
    rw [← hcsv, hcs]
  rw [hfin]
lemma stolNat_digits_bound {l : List Char} (hd : ∀ c ∈ l, isdigit c = true)
    (hl : l.length ≤ 9) : stolNat l < 2 ^ 63 := by
  have h1 := stolNat_lt hd
  have h2 : (10 : Nat) ^ l.length ≤ 10 ^ 9 := Nat.pow_le_pow_right (by norm_num) hl
  have h3 : (10 : Nat) ^ 9 < 2 ^ 63 := by norm_num
  omega

lemma chunkTrace7_bounds (numeric : List Char) (hnum : ∀ c ∈ numeric, isdigit c = true) :
    ∀ (seg : Nat) (p : List Char), seg ≤ numeric.length → p.length ≤ 2 →
      (∀ c ∈ p, isdigit c = true) →
      ∀ e ∈ chunkTrace7 numeric seg p,
        e.1 ≤ numeric.length ∧ e.2.length ≤ 9 ∧ stolNat e.2 < 2 ^ 63 := by
  refine chunkTrace7.induct numeric
    (fun seg p => seg ≤ numeric.length → p.length ≤ 2 → (∀ c ∈ p, isdigit c = true) →
      ∀ e ∈ chunkTrace7 numeric seg p,
        e.1 ≤ numeric.length ∧ e.2.length ≤ 9 ∧ stolNat e.2 < 2 ^ 63)
    (fun seg p hcond ih => ?_) (fun seg p hcond => ?_)
  · beta_reduce at ih ⊢
    intro hseg hp2 hpd e he
    rw [chunkTrace7.eq_def, if_pos hcond] at he
    have hargd : ∀ c ∈ p ++ (numeric.drop seg).take 7, isdigit c = true := by
      intro c hc
      rcases List.mem_append.mp hc with hc | hc
      · exact hpd c hc
      · exact hnum c (List.mem_of_mem_drop (List.mem_of_mem_take hc))
    have hargl : (p ++ (numeric.drop seg).take 7).length ≤ 9 := by
      have := List.length_take_le 7 (numeric.drop seg)
      simp [List.length_append]
      omega
    rcases List.mem_cons.mp he with rfl | he
    · exact ⟨hseg, hargl, stolNat_digits_bound hargd hargl⟩
    · have hm : stolNat (p ++ (numeric.drop seg).take 7) % 97 < 100 := by
        have := Nat.mod_lt (stolNat (p ++ (numeric.drop seg).take 7)) (show 0 < 97 by norm_num)
        omega
      exact ih (by omega) (by rw [prependRemainder_length hm])
        (fun c hc => prependRemainder_digits c hc) e he
  · beta_reduce
    intro hseg hp2 hpd e he
    rw [chunkTrace7.eq_def, if_neg hcond] at he
    simp at he
    subst he
    have hargd : ∀ c ∈ p ++ numeric.drop seg, isdigit c = true := by
      intro c hc
      rcases List.mem_append.mp hc with hc | hc
      · exact hpd c hc
      · exact hnum c (List.mem_of_mem_drop hc)
    have hargl : (p ++ numeric.drop seg).length ≤ 9 := by
      simp [List.length_append, List.length_drop]
      omega
    exact ⟨hseg, hargl, stolNat_digits_bound hargd hargl⟩

lemma chunkTrace_bounds {numeric : List Char} (hnum : ∀ c ∈ numeric, isdigit c = true)
    (hlen : 9 ≤ numeric.length) :
    ∀ e ∈ chunkTrace numeric,
      e.1 ≤ numeric.length ∧ e.2.length ≤ 9 ∧ stolNat e.2 < 2 ^ 63 := by
  intro e he
  rw [chunkTrace] at he
  by_cases h : 0 < numeric.length - 9
  · rw [if_pos h] at he
    have htake9 : ∀ c ∈ numeric.take 9, isdigit c = true :=
      fun c hc => hnum c (List.mem_of_mem_take hc)
    have hlen9 : (numeric.take 9).length ≤ 9 := List.length_take_le 9 numeric
    rcases List.mem_cons.mp he with rfl | he
    · exact ⟨by omega, hlen9, stolNat_digits_bound htake9 hlen9⟩
    · have hm : stolNat (numeric.take 9) % 97 < 100 := by
        have := Nat.mod_lt (stolNat (numeric.take 9)) (show 0 < 97 by norm_num)
        omega
      exact chunkTrace7_bounds numeric hnum 9 _ (by omega)
        (by rw [prependRemainder_length hm]) (fun c hc => prependRemainder_digits c hc) e he
  · rw [if_neg h] at he
    simp at he
    subst he
    refine ⟨by simp, ?_, ?_⟩
    · show numeric.length ≤ 9
      omega
    · have h9 : numeric.length ≤ 9 := by omega
      exact stolNat_digits_bound hnum h9
lemma natToChars_89 : natToChars 89 = ['8', '9'] := by decide

lemma checkStringOf_ibanDE : checkStringOf ibanDE = "370400440532013000DE89".toList := by
  unfold checkStringOf ibanDE
  simp only []
  rw [natToChars_89, padLoop_of_two (by simp)]
  decide

lemma insertSpaces_ibanDE :
    insertSpaces "370400440532013000".toList 0 = " 3704 0044 0532 0130 00".toList := by
  simp [insertSpaces]
/-- C1: for every IbanValue on which validate reaches the chunked reduction
(country code found in the table, check string length equal to the expected
length, substitution successful), the chunked computation agrees with the
full numeric string modulo 97, and validate returns true exactly when that
remainder is 1. -/
theorem validate_chunked_mod_correct (v : IBAN) (exp : Nat) (numeric : List Char)
    (h1 : mapFind v.m_countryCode = some exp)
    (h2 : (checkStringOf v).length = exp)
    (h3 : substitute (checkStringOf v) = some numeric) :
    chunkRun numeric % 97 = stolNat numeric % 97 ∧
      (IBAN.validate v = true ↔ stolNat numeric % 97 = 1) :=
  ⟨chunkRun_mod numeric, validate_true_iff h1 h2 h3⟩

/-- Witness for C1 at the German sample value. -/
theorem validate_chunked_mod_correct_witness :
    mapFind ibanDE.m_countryCode = some 22 ∧
    (checkStringOf ibanDE).length = 22 ∧
    substitute (checkStringOf ibanDE) = some numericDE ∧
    (chunkRun numericDE % 97 = stolNat numericDE % 97 ∧
      (IBAN.validate ibanDE = true ↔ stolNat numericDE % 97 = 1)) := by
  have h2 : (checkStringOf ibanDE).length = 22 := by
    rw [checkStringOf_ibanDE]
    decide
  have h3 : substitute (checkStringOf ibanDE) = some numericDE := by
    rw [checkStringOf_ibanDE]
    decide
  exact ⟨by decide, h2, h3, validate_chunked_mod_correct ibanDE 22 numericDE (by decide) h2 h3⟩

/-- C2, counterexample: the spelled-out input with spaces does not parse at
all, because the account identifier loop rejects the space character. -/
theorem parse_spaced_input_fails :
    createFromString "DE89 3704 0044 0532 0130 00".toList
      = .error ParseError.InvalidAccountIdentifier := by decide

/-- C2, amended: the space-free form of the German sample parses to the
expected fields and validates. -/
theorem parse_unspaced_DE89_validates :
    createFromString "DE89370400440532013000".toList = .ok ibanDE ∧
    ibanDE.m_countryCode = "DE".toList ∧ ibanDE.m_checkSum = 89 ∧
    ibanDE.m_accountIdentifier = "370400440532013000".toList ∧
    IBAN.validate ibanDE = true := by
  refine ⟨by decide, rfl, rfl, rfl, ?_⟩
  have h2 : (checkStringOf ibanDE).length = 22 := by
    rw [checkStringOf_ibanDE]
    decide
  have h3 : substitute (checkStringOf ibanDE) = some numericDE := by
    rw [checkStringOf_ibanDE]
    decide
  exact (validate_true_iff (by decide) h2 h3).mpr (by decide)

/-- C3, counterexample: two parses that succeed while breaking the claimed
invariant, one through partial std::stoi reading (checksum characters 0X),
one through a negative std::stoi result cast to size_t (characters -1). -/
theorem construction_invariant_cex :
    (createFromString "AB0XCDEF".toList = .ok ⟨"AB".toList, "CDEF".toList, 0⟩ ∧
      "AB".toList ++ padLoop (natToChars 0) ++ "CDEF".toList
        ≠ normalizeStr "AB0XCDEF".toList) ∧
    (createFromString "AB-1CDEF".toList
        = .ok ⟨"AB".toList, "CDEF".toList, 18446744073709551615⟩ ∧
      ¬ (18446744073709551615 : Nat) ≤ 99) := by
  have hp : padLoop (natToChars 0) = ['0', '0'] := by
    rw [natToChars_lt10 (by norm_num), padLoop_of_one (by rfl)]
    decide
  refine ⟨⟨by decide, ?_⟩, by decide, by decide⟩
  rw [hp]
  decide

/-- C3, amended: for parses whose normalized characters at positions 2 and 3
are both decimal digits, the produced value has a two-character uppercase
alphabetic country code, a checksum in [0, 99], and the concatenation of
country code, zero-padded checksum and account identifier is the normalized
input. -/
theorem construction_invariant_digits {s : List Char} {v : IBAN}
    (h : createFromString s = .ok v)
    (hd2 : isdigit ((normalizeStr s).getD 2 'A') = true)
    (hd3 : isdigit ((normalizeStr s).getD 3 'A') = true) :
    v.m_countryCode.length = 2 ∧ v.m_countryCode.all isupperAZ = true ∧
    v.m_checkSum ≤ 99 ∧
    v.m_countryCode ++ padLoop (natToChars v.m_checkSum) ++ v.m_accountIdentifier
      = normalizeStr s := by
  obtain ⟨c0, c1, c2, c3, rest, i, hs0, hlen5, hlen34, ha0, ha1, hst, hal, hv⟩ :=
    createFromString_ok_inv h
  rw [hs0] at hd2 hd3
  simp only [List.getD_cons_succ, List.getD_cons_zero] at hd2 hd3
  have hsteq := stoi_pair_digits hd2 hd3
  rw [hst] at hsteq
  injection hsteq with hieq
  have h99 : stolNat [c2, c3] ≤ 99 := stolNat_pair_lt100 hd2 hd3
  have hcs : v.m_checkSum = stolNat [c2, c3] := by
    rw [hv]
    simp only []
    have hlt : ((stolNat [c2, c3] : Nat) : Int) < 2 ^ 64 := by omega
    have hre : ((stolNat [c2, c3] : Nat) : Int).emod (2 ^ 64) = ((stolNat [c2, c3] : Nat) : Int) :=
      Int.emod_eq_of_lt (Int.natCast_nonneg _) hlt
    rw [hieq, hre]
    simp
  have hvc : v.m_countryCode = [c0, c1] := by rw [hv]
  have hva : v.m_accountIdentifier = rest := by rw [hv]
  have hm0 : c0 ∈ normalizeStr s := by
    rw [hs0]
    simp
  have hm1 : c1 ∈ normalizeStr s := by
    rw [hs0]
    simp
  refine ⟨by rw [hvc]; rfl, ?_, ?_, ?_⟩
  · rw [hvc]
    have hl0 : islower c0 = false := normalizeStr_no_lower s c0 hm0
    have hl1 : islower c1 = false := normalizeStr_no_lower s c1 hm1
    simp [isupperAZ_of_isalpha_not_lower ha0 hl0, isupperAZ_of_isalpha_not_lower ha1 hl1]
  · rw [hcs]
    exact h99
  · rw [hvc, hva, hcs, padLoop_natToChars_pair hd2 hd3, hs0]
    simp

/-- Witness for C3 at a concrete parse with digit check characters. -/
theorem construction_invariant_digits_witness :
    (⟨"AB".toList, "XYZW".toList, 42⟩ : IBAN).m_countryCode.length = 2 ∧
    (⟨"AB".toList, "XYZW".toList, 42⟩ : IBAN).m_countryCode.all isupperAZ = true ∧
    (⟨"AB".toList, "XYZW".toList, 42⟩ : IBAN).m_checkSum ≤ 99 ∧
    (⟨"AB".toList, "XYZW".toList, 42⟩ : IBAN).m_countryCode ++
        padLoop (natToChars (⟨"AB".toList, "XYZW".toList, 42⟩ : IBAN).m_checkSum) ++
        (⟨"AB".toList, "XYZW".toList, 42⟩ : IBAN).m_accountIdentifier
      = normalizeStr "AB42XYZW".toList :=
  @construction_invariant_digits "AB42XYZW".toList ⟨"AB".toList, "XYZW".toList, 42⟩
    (by decide) (by decide) (by decide)
/-- C4, counterexample: getMachineForm does not zero-pad the checksum; at
checksum 5 the machine form has one checksum character, not the claimed
two. -/
theorem getMachineForm_unpadded_cex :
    IBAN.getMachineForm ⟨"AB".toList, "XYZW".toList, 5⟩ = "AB5XYZW".toList ∧
    "AB".toList ++ padLoop (natToChars 5) ++ "XYZW".toList = "AB05XYZW".toList ∧
    IBAN.getMachineForm ⟨"AB".toList, "XYZW".toList, 5⟩
      ≠ "AB".toList ++ padLoop (natToChars 5) ++ "XYZW".toList := by
  have hp : padLoop (natToChars 5) = ['0', '5'] := by
    rw [natToChars_lt10 (by norm_num), padLoop_of_one (by rfl)]
    decide
  refine ⟨by decide, ?_, ?_⟩
  · rw [hp]
    decide
  · rw [hp]
    decide

/-- C4, amended: getMachineForm concatenates country code, the plain decimal
rendering of the checksum and the account identifier with no separators;
this coincides with the zero-padded two-digit form exactly when the checksum
is in [10, 99], while a checksum below ten occupies a single character. -/
theorem getMachineForm_amended (v : IBAN) :
    IBAN.getMachineForm v
        = v.m_countryCode ++ natToChars v.m_checkSum ++ v.m_accountIdentifier ∧
    (10 ≤ v.m_checkSum → v.m_checkSum ≤ 99 →
      IBAN.getMachineForm v
        = v.m_countryCode ++ padLoop (natToChars v.m_checkSum) ++ v.m_accountIdentifier) ∧
    (v.m_checkSum < 10 → (natToChars v.m_checkSum).length = 1) := by
  refine ⟨rfl, ?_, ?_⟩
  · intro h10 h99
    have hl2 : (natToChars v.m_checkSum).length = 2 := by
      rw [natToChars_two h10 h99]
      rfl
    rw [padLoop_of_two (by omega)]
    rfl
  · intro h10
    rw [natToChars_lt10 h10]
    rfl

/-- Witness for C4 at checksum 42. -/
theorem getMachineForm_amended_witness :
    IBAN.getMachineForm ⟨"AB".toList, "XYZW".toList, 42⟩
      = ("AB".toList : List Char) ++ padLoop (natToChars 42) ++ "XYZW".toList :=
  (getMachineForm_amended ⟨"AB".toList, "XYZW".toList, 42⟩).2.1 (by decide) (by decide)

/-- C5, counterexample: a parse with checksum 5 round-trips into a different
value, because the unpadded machine form shifts one account identifier
character into the checksum field. -/
theorem roundtrip_cex :
    createFromString "AB05XYZW".toList = .ok ⟨"AB".toList, "XYZW".toList, 5⟩ ∧
    createFromString (IBAN.getMachineForm ⟨"AB".toList, "XYZW".toList, 5⟩)
      = .ok ⟨"AB".toList, "YZW".toList, 5⟩ ∧
    ("YZW".toList : List Char) ≠ "XYZW".toList := ⟨by decide, by decide, by decide⟩

/-- C5, amended: for every string whose parse succeeds with a checksum in
[10, 99], re-parsing the machine form of the parsed value succeeds and
returns an equal value. -/
theorem parse_machineForm_roundtrip {s : List Char} {v : IBAN}
    (h : createFromString s = .ok v)
    (h10 : 10 ≤ v.m_checkSum) (h99 : v.m_checkSum ≤ 99) :
    createFromString (IBAN.getMachineForm v) = .ok v :=
  roundtrip_core h h10 h99

/-- Witness for C5 at a concrete parse with checksum 42. -/
theorem parse_machineForm_roundtrip_witness :
    createFromString (IBAN.getMachineForm (⟨"AB".toList, "XYZW".toList, 42⟩ : IBAN))
      = .ok ⟨"AB".toList, "XYZW".toList, 42⟩ :=
  @parse_machineForm_roundtrip "AB42XYZW".toList ⟨"AB".toList, "XYZW".toList, 42⟩
    (by decide) (by decide) (by decide)

/-- C6: evaluating getHumanReadable at the German sample shows the stored
account identifier is mutated in place, contradicting the specified frame
condition; the spec itself flags this source behaviour as a latent bug. -/
theorem getHumanReadable_mutates_field :
    ((IBAN.getHumanReadable ibanDE).2).getAccountIdentifier
        = " 3704 0044 0532 0130 00".toList ∧
    ((IBAN.getHumanReadable ibanDE).2).getAccountIdentifier
      ≠ ibanDE.getAccountIdentifier := by
  have hins := insertSpaces_ibanDE
  constructor
  · show insertSpaces "370400440532013000".toList 0 = _
    exact hins
  · show insertSpaces "370400440532013000".toList 0 ≠ _
    rw [hins]
    decide

/-- C7: an input whose normalized length is below 5 is rejected as TooShort,
and one whose normalized length exceeds 34 is rejected as TooLong; no value
is produced in either case. -/
theorem parse_length_errors (s : List Char) :
    ((normalizeStr s).length < 5 → createFromString s = .error ParseError.TooShort) ∧
    (34 < (normalizeStr s).length → createFromString s = .error ParseError.TooLong) := by
  constructor
  · intro h
    simp only [createFromString]
    rw [if_neg (by omega), if_pos h]
  · intro h
    simp only [createFromString]
    rw [if_pos h]

/-- Witness for C7 at a short and at a long input. -/
theorem parse_length_errors_witness :
    createFromString "XX".toList = .error ParseError.TooShort ∧
    createFromString "AB123456789012345678901234567890123".toList
      = .error ParseError.TooLong :=
  ⟨(parse_length_errors "XX".toList).1 (by decide),
   (parse_length_errors "AB123456789012345678901234567890123".toList).2 (by decide)⟩

/-- C8: validate is a pure function of the object; a call returns the object
state unchanged, a second call returns the same boolean, and the account
identifier is untouched. -/
theorem validate_pure_idempotent (v : IBAN) :
    (IBAN.validateCall v).1 = (IBAN.validateCall (IBAN.validateCall v).2).1 ∧
    (IBAN.validateCall v).2 = v ∧
    (IBAN.validateCall (IBAN.validateCall v).2).2.getAccountIdentifier
      = v.getAccountIdentifier :=
  ⟨rfl, rfl, rfl⟩

/-- C9: whenever validate reaches the chunk loop, the numeric string has at
least 15 characters, every substring position handed to substr is within
bounds, every std::stol argument has at most 9 characters, and its value
fits a 64 bit signed integer. -/
theorem validate_intermediate_bounds (v : IBAN) (exp : Nat) (numeric : List Char)
    (h1 : mapFind v.m_countryCode = some exp)
    (h2 : (checkStringOf v).length = exp)
    (h3 : substitute (checkStringOf v) = some numeric) :
    15 ≤ numeric.length ∧
      ∀ e ∈ chunkTrace numeric,
        e.1 ≤ numeric.length ∧ e.2.length ≤ 9 ∧ stolNat e.2 < 2 ^ 63 := by
  have hmin := mapFind_min h1
  have hsub := substitute_length h3
  have hlen : 15 ≤ numeric.length := by omega
  exact ⟨hlen, chunkTrace_bounds (substitute_digits h3) (by omega)⟩

/-- Witness for C9 at the German sample value. -/
theorem validate_intermediate_bounds_witness :
    15 ≤ numericDE.length ∧
      ∀ e ∈ chunkTrace numericDE,
        e.1 ≤ numericDE.length ∧ e.2.length ≤ 9 ∧ stolNat e.2 < 2 ^ 63 :=
  validate_intermediate_bounds ibanDE 22 numericDE (by decide)
    (by rw [checkStringOf_ibanDE]; decide) (by rw [checkStringOf_ibanDE]; decide)

/-- C10: a call of createFromString leaves the caller argument unchanged,
whether parsing succeeds or fails; the const_cast result is only the source
of a copy assignment. -/
theorem createFromString_argument_unchanged (string : List Char) :
    (createFromStringCall string).2 = string ∧
    (createFromStringCall string).1 = createFromString string :=
  ⟨rfl, rfl⟩
